import Mathlib

/-!
# Verification of the ACN acetonitrile calculator

Shallow embedding of `ase/calculators/acn.py` (Guardia et al. acetonitrile
potential): force-field constants, the minimum-image `wrap` helper, the
Lorentz-Berthelot combining rule, the cubic smoothstep `cutoff`, the
pairwise Coulomb + Lennard-Jones interaction engine of `ACN.calculate`,
the rigid-body force redistribution `ACN.redistribute_forces`, and the
`PointChargePotential` embedding helper.

Conventions of the embedding:
* Python floats are modelled by exact real numbers `ℝ`.
* Atom `i` of the flat arrays is the pair `(i / 3, i % 3)`; we index atoms
  by a molecule number `m : ℕ` and an intramolecular offset `s : Fin 3`.
  Numpy slices such as `f[n::3]` select the atoms with offset `n`.
* `x ** 0.5` on nonnegative floats is `Real.sqrt`; `%` on floats with a
  positive modulus is floor-mod, written `fmod` below.
* Numpy arrays over atoms become functions `ℕ → Fin 3 → _`; only the
  indices below the atom count are ever used by the theorems.
* The loop of `ACN.calculate` only accumulates terms with `+=` / `-=`
  into `self.forces`; the embedding writes each accumulator directly as
  the finite sum of the accumulated terms.
-/

namespace AcnVerify

noncomputable section

/-! ## Force-field constants (lines 14-40 of acn.py) -/

/-- Force-field charge of the methyl pseudo-atom, `qMe = 0.206`. -/
def qMe : ℝ := 0.206

/-- Force-field charge of the carbon site, `qC = 0.247`. -/
def qC : ℝ := 0.247

/-- Force-field charge of the nitrogen site, `qN = -0.453`. -/
def qN : ℝ := -0.453

/-- Per-species Lennard-Jones sigma, `sigma = [sigmaMe, sigmaC, sigmaN]`. -/
def sigmaArr : Fin 3 → ℝ := ![3.775, 3.65, 3.2]

/-- Per-species Lennard-Jones epsilon, `epsilon = [epsilonMe, epsilonC,
epsilonN]`.  The code multiplies each literal by `units.kJ / units.mol`;
`ase.units` is not under `src/`, so that positive conversion factor is the
abstract parameter `u`. -/
def epsilonArr (u : ℝ) : Fin 3 → ℝ := ![0.7824 * u, 0.544 * u, 0.6276 * u]

/-- Bond length `rMeC = 1.458`. -/
def rMeC : ℝ := 1.458

/-- Bond length `rCN = 1.157`. -/
def rCN : ℝ := 1.157

/-- Bond length `rMeN = rMeC + rCN`. -/
def rMeN : ℝ := rMeC + rCN

/-- Rigid-body ratio `CMe = rCN / rMeN`. -/
def CMe : ℝ := rCN / rMeN

/-- Rigid-body ratio `CN = rMeC / rMeN`. -/
def CN : ℝ := rMeC / rMeN

/-- Modelled from the spec: atomic mass of hydrogen.  The code reads
`atomic_masses` from `ase.data`, which is not under `src/`; the spec only
says the masses are fixed physical constants, so the standard IUPAC values
used by ASE are taken. -/
def mH : ℝ := 1.008

/-- Modelled from the spec: atomic mass of carbon (see `mH`). -/
def mC : ℝ := 12.011

/-- Modelled from the spec: atomic mass of nitrogen (see `mH`). -/
def mN : ℝ := 14.007

/-- Mass of the methyl pseudo-atom, `mMe = atomic_masses[6] + 3 *
atomic_masses[1]`. -/
def mMe : ℝ := mC + 3 * mH

/-- Pairwise mass product `MCN = mC * mN`. -/
def MCN : ℝ := mC * mN

/-- Pairwise mass product `MMeC = mC * mMe`. -/
def MMeC : ℝ := mC * mMe

/-- Pairwise mass product `MMeN = mN * mMe`. -/
def MMeN : ℝ := mN * mMe

/-- Normalizer `NMe = CMe / (CMe^2*MCN + CN^2*MMeC + MMeN)`. -/
def NMe : ℝ := CMe / (CMe ^ 2 * MCN + CN ^ 2 * MMeC + MMeN)

/-- Normalizer `NN = CN / (CMe^2*MCN + CN^2*MMeC + MMeN)`. -/
def NN : ℝ := CN / (CMe ^ 2 * MCN + CN ^ 2 * MMeC + MMeN)

/-! ## Species-sequence validation (lines 42-59 and 115-126) -/

/-- Offset of the nitrogen site, from `ACN.calculate`: `n = 0` when the
first atom is nitrogen (`Z[0] == 7`), else `n = 2`. -/
def nIdx (Z : ℕ → Fin 3 → ℤ) : Fin 3 := if Z 0 0 = 7 then 0 else 2

/-- Offset of the methyl site, from `ACN.calculate`: `me = 2` when the
first atom is nitrogen, else `me = 0`. -/
def meIdx (Z : ℕ → Fin 3 → ℤ) : Fin 3 := if Z 0 0 = 7 then 2 else 0

/-- The species check that `ACN.calculate` actually performs.  Line 121,
`assert (Z[n::3] == 7).all()`, is a real check of every nitrogen offset.
Line 123, `assert (Z[1::3] == 6).all`, is missing the call parentheses:
it asserts the truthiness of the bound method object `.all`, which is
always true, so the carbon offsets are never checked. -/
def speciesOkCode (nm : ℕ) (Z : ℕ → Fin 3 → ℤ) : Bool :=
  decide (∀ m, m < nm → Z m (nIdx Z) = 7)

/-- Modelled from the spec: the species check the spec ascribes to the
evaluator, namely that in addition to `speciesOkCode` the species at
offset 1 of every triplet is carbon (`Z[1::3] == 6`).  This is the check
the inert assert on line 123 of the code was evidently meant to perform. -/
def speciesOkIntended (nm : ℕ) (Z : ℕ → Fin 3 → ℤ) : Bool :=
  speciesOkCode nm Z && decide (∀ m, m < nm → Z m 1 = 6)

/-- The species check that `set_acn_charges` actually performs.  Both of
its asserts (lines 52 and 54) are missing the call parentheses on `.all`,
so both test the truthiness of a bound method object and always pass:
`set_acn_charges` performs no effective validation at all and always
writes the charges. -/
def setAcnChargesCheck (_nm : ℕ) (_Z : ℕ → Fin 3 → ℤ) : Bool := true

/-! ## Minimum-image wrap (lines 61-69) -/

/-- Floor-mod on reals: the value of the Python float expression `a % L`
for a positive modulus `L`. -/
def fmod (a L : ℝ) : ℝ := a - L * ⌊a / L⌋

/-- One axis of `wrap`: the shift is `(d + L/2) % L - L/2 - d` on a
periodic axis and `0` (the `np.zeros_like` initialisation is kept) on a
non-periodic axis. -/
def wrapAxis (d L : ℝ) (periodic : Bool) : ℝ :=
  if periodic then fmod (d + L / 2) L - L / 2 - d else 0

/-- Wrap distances to the nearest neighbour (minimum image convention):
rowwise, axiswise application of `wrapAxis` to an array of displacement
rows indexed by `ι`. -/
def wrap {ι : Type} (D : ι → Fin 3 → ℝ) (cell : Fin 3 → ℝ)
    (pbc : Fin 3 → Bool) : ι → Fin 3 → ℝ :=
  fun r i => wrapAxis (D r i) (cell i) (pbc i)

/-! ## Lorentz-Berthelot combining rule (lines 71-80) -/

/-- Combine LJ parameters according to the Lorentz-Berthelot rule.  The
code fills column `ii` with `(sigma[ii] + sigma) / 2` and
`(epsilon[ii] * epsilon) ** 0.5`, so entry `(i, j)` of the results is
`(sigma j + sigma i) / 2` and `sqrt (epsilon j * epsilon i)`. -/
def CombineLJ_lorenz_berthelot {k : ℕ} (sg eps : Fin k → ℝ) :
    (Fin k → Fin k → ℝ) × (Fin k → Fin k → ℝ) :=
  (fun i j => (sg j + sg i) / 2, fun i j => Real.sqrt (eps j * eps i))

/-! ## Switching (cutoff) function (lines 204-214) -/

/-- Smooth cutoff of `ACN.cutoff` for one distance `d`: the weight starts
at `1` on `d < rc` (`cut[x2] = 1`), gets `y^2 * (3 - 2*y)` subtracted on
the switching window `rc - width < d < rc` (`cut[x12] -= ...`), and the
derivative is `-(6/width) * y * (1-y)` on the window and `0` outside. -/
def cutoff (rc width d : ℝ) : ℝ × ℝ :=
  let y := (d - rc + width) / width
  ((if d < rc then 1 else 0) -
     (if rc - width < d ∧ d < rc then y ^ 2 * (3 - 2 * y) else 0),
   0 - (if rc - width < d ∧ d < rc then 6 / width * y * (1 - y) else 0))

/-! ## Rigid-body force redistribution (lines 186-196) -/

/-- Redistribution of `ACN.redistribute_forces` (Ciccotti et al. 1982):
`f_new` starts as zeros, then the rows with offset `n` and the rows with
offset `me` are assigned (in that order, so on overlap the `me`
assignment would win); the carbon rows (offset 1) stay zero. -/
def redistribute_forces (n me : Fin 3) (f_old : ℕ × Fin 3 → Fin 3 → ℝ) :
    ℕ × Fin 3 → Fin 3 → ℝ :=
  fun a ax =>
    if a.2 = me then
      (1 - NMe * MCN * CMe) * f_old (a.1, me) ax
        - NMe * MMeC * CN * f_old (a.1, n) ax
        + NMe * MMeN * f_old (a.1, 1) ax
    else if a.2 = n then
      (1 - NN * MMeC * CN) * f_old (a.1, n) ax
        - NN * MCN * CMe * f_old (a.1, me) ax
        + NN * MMeN * f_old (a.1, 1) ax
    else 0

/-! ## The pairwise interaction engine of `ACN.calculate` (lines 100-184)

The per-evaluation inputs of `ACN.calculate`: the cutoff configuration of
the constructor, the physical constants that live in modules not under
`src/` (`kc = units.Hartree * units.Bohr` and `u = units.kJ / units.mol`,
kept abstract), the positions reshaped to `(nm, 3, 3)`, the charge triple
`charges = atoms[:3].get_initial_charges()`, the diagonal of the cell and
the periodicity flags. -/

/-- Inputs of one evaluation of the pairwise engine. -/
structure EngineIn where
  rc : ℝ
  width : ℝ
  kc : ℝ
  u : ℝ
  R : ℕ → Fin 3 → Fin 3 → ℝ
  q : Fin 3 → ℝ
  cell : Fin 3 → ℝ
  pbc : Fin 3 → Bool

/-- Reference displacement rows `Dmm = R[m+1:, 1] - R[m, 1]` (line 136);
row `p` is the carbon-carbon displacement from molecule `m` to `p`. -/
def Dmm0 (c : EngineIn) (m : ℕ) : ℕ → Fin 3 → ℝ :=
  fun p ax => c.R p 1 ax - c.R m 1 ax

/-- Per-pair minimum image shift, `shift = wrap(Dmm, cell, pbc)` (line 138). -/
def shiftV (c : EngineIn) (m p : ℕ) (ax : Fin 3) : ℝ :=
  wrap (Dmm0 c m) c.cell c.pbc p ax

/-- Shifted molecule-pair displacement, `Dmm += shift` (line 141). -/
def DmmV (c : EngineIn) (m p : ℕ) (ax : Fin 3) : ℝ :=
  Dmm0 c m p ax + shiftV c m p ax

/-- Molecule-pair distance `d = (Dmm**2).sum(1) ** 0.5` (lines 142-143). -/
def dV (c : EngineIn) (m p : ℕ) : ℝ :=
  Real.sqrt (∑ ax : Fin 3, DmmV c m p ax ^ 2)

/-- Cutoff weight `cut` of the molecule pair (line 144). -/
def cutV (c : EngineIn) (m p : ℕ) : ℝ :=
  (cutoff c.rc c.width (dV c m p)).1

/-- Cutoff derivative `dcut` of the molecule pair (line 144). -/
def dcutV (c : EngineIn) (m p : ℕ) : ℝ :=
  (cutoff c.rc c.width (dV c m p)).2

/-- Combined sigma matrix `sigma_c` (line 147). -/
def sigC : Fin 3 → Fin 3 → ℝ :=
  (CombineLJ_lorenz_berthelot sigmaArr (epsilonArr 1)).1

/-- Combined epsilon matrix `epsilon_c` (line 147). -/
def epsC (u : ℝ) : Fin 3 → Fin 3 → ℝ :=
  (CombineLJ_lorenz_berthelot sigmaArr (epsilonArr u)).2

/-- Site-pair displacement `D = R[m+1:] - R[m, j] + shift[:, None]`
(line 150): from site `j` of molecule `m` to site `i` of molecule `p`. -/
def Dsite (c : EngineIn) (m : ℕ) (j : Fin 3) (p : ℕ) (i : Fin 3) (ax : Fin 3) : ℝ :=
  c.R p i ax - c.R m j ax + shiftV c m p ax

/-- Squared site-pair distance `r2 = (D**2).sum(axis=2)` (line 151). -/
def r2V (c : EngineIn) (m : ℕ) (j : Fin 3) (p : ℕ) (i : Fin 3) : ℝ :=
  ∑ ax : Fin 3, Dsite c m j p i ax ^ 2

/-- Site-pair distance `r = r2 ** 0.5` (line 152). -/
def rV (c : EngineIn) (m : ℕ) (j : Fin 3) (p : ℕ) (i : Fin 3) : ℝ :=
  Real.sqrt (r2V c m j p i)

/-- Coulomb pair energy `e = charges[j] * charges / r * k_c` (line 154). -/
def eCoul (c : EngineIn) (m : ℕ) (j : Fin 3) (p : ℕ) (i : Fin 3) : ℝ :=
  c.q j * c.q i / rV c m j p i * c.kc

/-- Coulomb pair force `F = (e / r2 * cut[:, None])[:, :, None] * D`
(line 156). -/
def FCoul (c : EngineIn) (m : ℕ) (j : Fin 3) (p : ℕ) (i : Fin 3) (ax : Fin 3) : ℝ :=
  eCoul c m j p i / r2V c m j p i * cutV c m p * Dsite c m j p i ax

/-- Coulomb cutoff-derivative correction
`Fmm = -(e.sum(1) * dcut / d)[:, None] * Dmm` (line 157). -/
def FmmCoul (c : EngineIn) (m : ℕ) (j : Fin 3) (p : ℕ) (ax : Fin 3) : ℝ :=
  -((∑ i : Fin 3, eCoul c m j p i) * dcutV c m p / dV c m p) * DmmV c m p ax

/-- Lennard-Jones `c6 = (sigma_c[:, j]**2 / r2)**3` (line 163). -/
def c6V (c : EngineIn) (m : ℕ) (j : Fin 3) (p : ℕ) (i : Fin 3) : ℝ :=
  (sigC i j ^ 2 / r2V c m j p i) ^ 3

/-- Lennard-Jones `c12 = c6**2` (line 164). -/
def c12V (c : EngineIn) (m : ℕ) (j : Fin 3) (p : ℕ) (i : Fin 3) : ℝ :=
  c6V c m j p i ^ 2

/-- Lennard-Jones pair energy `e = 4 * epsilon_c[:, j] * (c12 - c6)`
(line 165). -/
def eLJ (c : EngineIn) (m : ℕ) (j : Fin 3) (p : ℕ) (i : Fin 3) : ℝ :=
  4 * epsC c.u i j * (c12V c m j p i - c6V c m j p i)

/-- Lennard-Jones pair force
`F = (24 * epsilon_c[:, j] * (2*c12 - c6) / r2 * cut[:, None])[:, :, None] * D`
(line 167). -/
def FLJ (c : EngineIn) (m : ℕ) (j : Fin 3) (p : ℕ) (i : Fin 3) (ax : Fin 3) : ℝ :=
  24 * epsC c.u i j * (2 * c12V c m j p i - c6V c m j p i) / r2V c m j p i *
    cutV c m p * Dsite c m j p i ax

/-- Lennard-Jones cutoff-derivative correction (line 168). -/
def FmmLJ (c : EngineIn) (m : ℕ) (j : Fin 3) (p : ℕ) (ax : Fin 3) : ℝ :=
  -((∑ i : Fin 3, eLJ c m j p i) * dcutV c m p / dV c m p) * DmmV c m p ax

/-- Accumulated total energy: for each `m` and `j` the code adds
`np.dot(cut, e).sum()` once for the Coulomb and once for the LJ term
(lines 155 and 166); later molecules `p` run over `m+1 .. nm-1`. -/
def energyTot (c : EngineIn) (nm : ℕ) : ℝ :=
  ∑ m ∈ Finset.range nm, ∑ j : Fin 3, ∑ p ∈ Finset.range nm,
    if m < p then
      cutV c m p * (∑ i : Fin 3, eCoul c m j p i) +
        cutV c m p * (∑ i : Fin 3, eLJ c m j p i)
    else 0

/-- Accumulated raw forces `self.forces` after the double loop
(lines 131, 158-161 and 169-172), written directly as the sum of all the
`+=` / `-=` contributions received by atom `a = (a.1, a.2)`:
`forces[(m+1)*3:] += F` delivers the pair forces of every earlier
reference molecule `m` and offset `j`; `forces[m*3+j] -= F.sum` is the
reaction when `a` itself is the reference site; and the `Fmm` rows go to
the carbon sites (`forces[(m+1)*3+1::3] += Fmm`, `forces[m*3+1] -=
Fmm.sum(0)`). -/
def rawForces (c : EngineIn) (nm : ℕ) : ℕ × Fin 3 → Fin 3 → ℝ :=
  fun a ax =>
    (∑ m ∈ Finset.range nm, ∑ j : Fin 3,
        if m < a.1 then FCoul c m j a.1 a.2 ax + FLJ c m j a.1 a.2 ax else 0)
    - (∑ p ∈ Finset.range nm, ∑ i : Fin 3,
        if a.1 < p then FCoul c a.1 a.2 p i ax + FLJ c a.1 a.2 p i ax else 0)
    + (if a.2 = 1 then
        ∑ m ∈ Finset.range nm, ∑ j : Fin 3,
          if m < a.1 then FmmCoul c m j a.1 ax + FmmLJ c m j a.1 ax else 0
       else 0)
    - (if a.2 = 1 then
        ∑ j : Fin 3, ∑ p ∈ Finset.range nm,
          if a.1 < p then FmmCoul c a.1 j p ax + FmmLJ c a.1 j p ax else 0
       else 0)

/-! ## Point-charge embedding (lines 227-256) -/

/-- Mutable state of a `PointChargePotential` instance. -/
structure PCPState where
  mmcharges : List ℝ
  mmpositions : Option (List (Fin 3 → ℝ))
  mmforces : Option (List (Fin 3 → ℝ))

/-- One call of `PointChargePotential.calculate(qmcharges, qmpositions)`
(lines 240-253).  With no stored positions the code crashes on
`zip` / `zeros_like` (modelled as `none`); otherwise it accumulates the
energy and the solute forces over the zipped charge/position pairs,
stores the reaction forces in `mmforces` (rows beyond the zipped prefix
keep their `np.zeros_like` value), clears `mmpositions` to `None`
(line 252) and returns energy and solute forces. -/
def pcpCalculate (kc : ℝ) (nq : ℕ) (qmq : ℕ → ℝ) (qmpos : ℕ → Fin 3 → ℝ)
    (st : PCPState) : Option (ℝ × (ℕ → Fin 3 → ℝ) × PCPState) :=
  match st.mmpositions with
  | none => none
  | some P =>
    let pairs := st.mmcharges.zip P
    let r2 : ℝ × (Fin 3 → ℝ) → ℕ → ℝ :=
      fun CR k => ∑ ax : Fin 3, (qmpos k ax - CR.2 ax) ^ 2
    let e : ℝ × (Fin 3 → ℝ) → ℕ → ℝ :=
      fun CR k => kc * CR.1 * (Real.sqrt (r2 CR k))⁻¹ * qmq k
    let f : ℝ × (Fin 3 → ℝ) → ℕ → Fin 3 → ℝ :=
      fun CR k ax => e CR k / r2 CR k * (qmpos k ax - CR.2 ax)
    some ((pairs.map fun CR => ∑ k ∈ Finset.range nq, e CR k).sum,
      fun k ax => (pairs.map fun CR => f CR k ax).sum,
      { mmcharges := st.mmcharges
        mmpositions := none
        mmforces := some ((pairs.map fun CR ax => -∑ k ∈ Finset.range nq, f CR k ax)
          ++ List.replicate (P.length - pairs.length) fun _ => 0) })

/-- Tiled charges `np.tile(charges, nm)` of the embedding call (line 175),
as a function of the flat atom index. -/
def flatCharge (q : Fin 3 → ℝ) : ℕ → ℝ :=
  fun k => q ⟨k % 3, Nat.mod_lt _ (by norm_num)⟩

/-- Flat `self.atoms.positions` of the embedding call (line 176). -/
def flatPos (R : ℕ → Fin 3 → Fin 3 → ℝ) : ℕ → Fin 3 → ℝ :=
  fun k => R (k / 3) ⟨k % 3, Nat.mod_lt _ (by norm_num)⟩

/-- Redistributed forces of an evaluation without an attached point-charge
potential: `redistribute_forces(self.n, self.me, self.forces)` applied to
the raw accumulated forces (line 180). -/
def finalForcesNoPc (c : EngineIn) (Z : ℕ → Fin 3 → ℤ) (nm : ℕ) :
    ℕ × Fin 3 → Fin 3 → ℝ :=
  redistribute_forces (nIdx Z) (meIdx Z) (rawForces c nm)

/-- One call of `ACN.calculate` on the engine inputs `c` (whose charge
triple `c.q` the caller extracts from the first three atoms), species
numbers `Z` and optional attached point-charge state: validate the
species sequence (the effective checks only, see `speciesOkCode`), run
the pair loop, optionally add the embedding contribution, then always
redistribute; returns total energy, final per-atom forces and the
point-charge state left behind. -/
def calcCore (c : EngineIn) (Z : ℕ → Fin 3 → ℤ) (nm : ℕ)
    (pc : Option PCPState) :
    Option (ℝ × ((ℕ × Fin 3) → Fin 3 → ℝ) × Option PCPState) :=
  if speciesOkCode nm Z then
    match pc with
    | none =>
        some (energyTot c nm, finalForcesNoPc c Z nm, none)
    | some st =>
        match pcpCalculate c.kc (3 * nm) (flatCharge c.q) (flatPos c.R) st with
        | none => none
        | some res =>
            some (energyTot c nm + res.1,
              redistribute_forces (nIdx Z) (meIdx Z)
                (fun a ax => rawForces c nm a ax + res.2.1 (3 * a.1 + (a.2 : ℕ)) ax),
              some res.2.2)
  else none

/-- `ACN.calculate` as seen by the caller: the charge triple is read from
the first three atoms of the snapshot, `charges =
self.atoms[:3].get_initial_charges()` (line 128). -/
def ACNcalculate (rc width kc u : ℝ) (nm : ℕ) (R : ℕ → Fin 3 → Fin 3 → ℝ)
    (Z : ℕ → Fin 3 → ℤ) (charges : ℕ → Fin 3 → ℝ) (cell : Fin 3 → ℝ)
    (pbc : Fin 3 → Bool) (pc : Option PCPState) :
    Option (ℝ × ((ℕ × Fin 3) → Fin 3 → ℝ) × Option PCPState) :=
  calcCore ⟨rc, width, kc, u, R, charges 0, cell, pbc⟩ Z nm pc

/-! ## Helper lemmas -/

/-- Floor-mod as the cell length times the fractional part. -/
lemma fmod_eq_fract (a L : ℝ) (hL : L ≠ 0) : fmod a L = L * Int.fract (a / L) := by
  unfold fmod Int.fract
  field_simp

/-- Range of the floor-mod for a positive modulus. -/
lemma fmod_nonneg_lt (a L : ℝ) (hL : 0 < L) : 0 ≤ fmod a L ∧ fmod a L < L := by
  rw [fmod_eq_fract a L hL.ne']
  constructor
  · exact mul_nonneg hL.le (Int.fract_nonneg _)
  · calc L * Int.fract (a / L) < L * 1 :=
        (mul_lt_mul_left hL).mpr (Int.fract_lt_one _)
    _ = L := mul_one L

/-- Floor-mod is invariant under adding the modulus to the argument. -/
lemma fmod_add_self (a L : ℝ) (hL : L ≠ 0) : fmod (a + L) L = fmod a L := by
  rw [fmod_eq_fract _ _ hL, fmod_eq_fract _ _ hL, add_div, div_self hL,
    Int.fract_add_one]

/-- Floor-mod of a negated argument, away from the lattice. -/
lemma fmod_neg (a L : ℝ) (hL : 0 < L) (h : fmod a L ≠ 0) :
    fmod (-a) L = L - fmod a L := by
  have hfr : Int.fract (a / L) ≠ 0 := by
    intro hz
    exact h (by rw [fmod_eq_fract _ _ hL.ne', hz, mul_zero])
  rw [fmod_eq_fract _ _ hL.ne', fmod_eq_fract _ _ hL.ne', neg_div,
    Int.fract_neg hfr]
  ring

/-! ## C7: the Lorentz-Berthelot combining rule -/

/-- C7: for all per-species vectors `sigma`, `epsilon` of any length `k`,
`CombineLJ_lorenz_berthelot` returns the matrices with entries
`(sigma i + sigma j) / 2` and `sqrt (epsilon i * epsilon j)`, and both
matrices are symmetric. -/
theorem combineLJ_formula_and_symm {k : ℕ} (sg eps : Fin k → ℝ) (i j : Fin k) :
    (CombineLJ_lorenz_berthelot sg eps).1 i j = (sg i + sg j) / 2 ∧
    (CombineLJ_lorenz_berthelot sg eps).2 i j = Real.sqrt (eps i * eps j) ∧
    (CombineLJ_lorenz_berthelot sg eps).1 i j =
      (CombineLJ_lorenz_berthelot sg eps).1 j i ∧
    (CombineLJ_lorenz_berthelot sg eps).2 i j =
      (CombineLJ_lorenz_berthelot sg eps).2 j i := by
  refine ⟨?_, ?_, ?_, ?_⟩ <;>
    simp [CombineLJ_lorenz_berthelot, add_comm, mul_comm]

/-! ## C4: the switching function -/

/-- C4: for `rc > width > 0` the cutoff returns weight `0` and derivative
`0` for `d ≥ rc`; weight `1` and derivative `0` for `d ≤ rc - width`; the
smoothstep formulas (with the weight inside `[0, 1]`) on the switching
window; and the boundary values `cut (rc - width) = 1`, `cut rc = 0`,
both with derivative `0`. -/
theorem cutoff_spec (rc w d : ℝ) (hw : 0 < w) (_hrc : w < rc) :
    (rc ≤ d → cutoff rc w d = (0, 0)) ∧
    (d ≤ rc - w → cutoff rc w d = (1, 0)) ∧
    (rc - w < d → d < rc →
      (cutoff rc w d).1 =
        1 - ((d - rc + w) / w) ^ 2 * (3 - 2 * ((d - rc + w) / w)) ∧
      0 ≤ (cutoff rc w d).1 ∧ (cutoff rc w d).1 ≤ 1 ∧
      (cutoff rc w d).2 = -(6 / w * ((d - rc + w) / w) * (1 - (d - rc + w) / w))) ∧
    cutoff rc w (rc - w) = (1, 0) ∧ cutoff rc w rc = (0, 0) := by
  refine ⟨?_, ?_, ?_, ?_, ?_⟩
  · intro hd
    have h2 : ¬d < rc := not_lt.mpr hd
    simp [cutoff, h2]
  · intro hd
    have h1 : ¬rc - w < d := not_lt.mpr hd
    have h2 : d < rc := lt_of_le_of_lt hd (by linarith)
    simp [cutoff, h1, h2]
  · intro h1 h2
    set y : ℝ := (d - rc + w) / w with hy
    have hy0 : 0 < y := div_pos (by linarith) hw
    have hy1 : y < 1 := (div_lt_one hw).mpr (by linarith)
    refine ⟨by simp [cutoff, h1, h2], ?_, ?_, by simp [cutoff, h1, h2]⟩
    · have : y ^ 2 * (3 - 2 * y) ≤ 1 := by nlinarith [sq_nonneg (1 - y)]
      simp only [cutoff, if_pos h2, if_pos (And.intro h1 h2)]
      linarith
    · have : 0 ≤ y ^ 2 * (3 - 2 * y) := by nlinarith
      simp only [cutoff, if_pos h2, if_pos (And.intro h1 h2)]
      linarith
  · have h1 : ¬rc - w < rc - w := lt_irrefl _
    have h2 : rc - w < rc := by linarith
    simp [cutoff, h1, h2]
  · have h2 : ¬rc < rc := lt_irrefl _
    simp [cutoff, h2]

/-- Witness for `cutoff_spec` at `rc = 5`, `width = 1`, `d = 4.5`
(the constructor defaults, a point inside the switching window). -/
theorem cutoff_spec_witness :
    (0 : ℝ) < 1 ∧ (1 : ℝ) < 5 ∧
    ((5 : ℝ) ≤ 4.5 → cutoff 5 1 4.5 = (0, 0)) ∧
    ((4.5 : ℝ) ≤ 5 - 1 → cutoff 5 1 4.5 = (1, 0)) ∧
    ((5 : ℝ) - 1 < 4.5 → (4.5 : ℝ) < 5 →
      (cutoff 5 1 4.5).1 =
        1 - ((4.5 - 5 + 1) / 1) ^ 2 * (3 - 2 * ((4.5 - 5 + 1) / 1)) ∧
      0 ≤ (cutoff 5 1 4.5).1 ∧ (cutoff 5 1 4.5).1 ≤ 1 ∧
      (cutoff 5 1 4.5).2 =
        -(6 / 1 * ((4.5 - 5 + 1) / 1) * (1 - (4.5 - 5 + 1) / 1))) ∧
    cutoff 5 1 (5 - 1) = (1, 0) ∧ cutoff 5 1 5 = (0, 0) :=
  ⟨by norm_num, by norm_num, cutoff_spec 5 1 4.5 (by norm_num) (by norm_num)⟩

/-! ## C5: the minimum-image wrap -/

/-- C5: for any array of displacement rows (any length, including zero),
positive cell length on an axis: on a periodic axis the correction is
`((d + L/2) mod L) - L/2 - d` and the wrapped value has magnitude at most
`L/2`; on a non-periodic axis the correction is `0`. -/
theorem wrap_spec {N : ℕ} (D : Fin N → Fin 3 → ℝ) (cell : Fin 3 → ℝ)
    (pbc : Fin 3 → Bool) (r : Fin N) (ax : Fin 3) (hL : 0 < cell ax) :
    (pbc ax = true →
      wrap D cell pbc r ax =
        fmod (D r ax + cell ax / 2) (cell ax) - cell ax / 2 - D r ax ∧
      |D r ax + wrap D cell pbc r ax| ≤ cell ax / 2) ∧
    (pbc ax = false → wrap D cell pbc r ax = 0) := by
  constructor
  · intro hp
    constructor
    · simp [wrap, wrapAxis, hp]
    · have hb := fmod_nonneg_lt (D r ax + cell ax / 2) (cell ax) hL
      have : D r ax + wrap D cell pbc r ax =
          fmod (D r ax + cell ax / 2) (cell ax) - cell ax / 2 := by
        simp [wrap, wrapAxis, hp]
        try ring
      rw [this]
      rw [abs_le]
      constructor <;> [linarith [hb.1]; linarith [hb.2]]
  · intro hp
    simp [wrap, wrapAxis, hp]

/-- Witness for `wrap_spec`: one displacement row `d = 1` in a periodic
cell of length `5`. -/
theorem wrap_spec_witness :
    (0 : ℝ) < 5 ∧
    |(1 : ℝ) + wrap (fun (_ : Fin 1) (_ : Fin 3) => (1 : ℝ)) (fun _ => 5)
      (fun _ => true) 0 0| ≤ 5 / 2 := by
  refine ⟨by norm_num, ?_⟩
  have h := (wrap_spec (fun (_ : Fin 1) (_ : Fin 3) => (1 : ℝ)) (fun _ => 5)
    (fun _ => true) 0 0 (by norm_num)).1 rfl
  simpa using h.2

/-! ## C6: antisymmetry of the wrap corrections -/

/-- C6 fails at half-cell displacements: with cell length `5` and
periodic flags, the correction for the row `d = 2.5` is `-5` while the
correction for `d = -2.5` is `0`, which are not exact negatives, so
`wrap (-D) = -wrap (D)` does not hold for all inputs. -/
theorem wrap_antisym_counterexample :
    wrap (fun (_ : Fin 1) (_ : Fin 3) => (2.5 : ℝ)) (fun _ => 5)
        (fun _ => true) 0 0 = -5 ∧
    wrap (fun (_ : Fin 1) (_ : Fin 3) => (-2.5 : ℝ)) (fun _ => 5)
        (fun _ => true) 0 0 = 0 ∧
    wrap (fun (_ : Fin 1) (_ : Fin 3) => (-2.5 : ℝ)) (fun _ => 5)
        (fun _ => true) 0 0 ≠
      -wrap (fun (_ : Fin 1) (_ : Fin 3) => (2.5 : ℝ)) (fun _ => 5)
        (fun _ => true) 0 0 := by
  have h1 : wrap (fun (_ : Fin 1) (_ : Fin 3) => (2.5 : ℝ)) (fun _ => 5)
      (fun _ => true) 0 0 = -5 := by
    simp only [wrap, wrapAxis, if_pos rfl, fmod]
    norm_num
  have h2 : wrap (fun (_ : Fin 1) (_ : Fin 3) => (-2.5 : ℝ)) (fun _ => 5)
      (fun _ => true) 0 0 = 0 := by
    simp only [wrap, wrapAxis, if_pos rfl, fmod]
    norm_num
  refine ⟨h1, h2, ?_⟩
  rw [h1, h2]
  norm_num

/-- C6 amended: the corrections of `wrap` for `D` and `-D` are exact
negatives along every non-periodic axis and along every periodic axis on
which the displacement is not congruent to half the cell length modulo
the cell (at such half-cell displacements both copies wrap to `-L/2` and
antisymmetry fails, see the counterexample). -/
theorem wrap_antisym {N : ℕ} (D : Fin N → Fin 3 → ℝ) (cell : Fin 3 → ℝ)
    (pbc : Fin 3 → Bool) (r : Fin N) (ax : Fin 3) (hL : 0 < cell ax)
    (h : pbc ax = false ∨ fmod (D r ax + cell ax / 2) (cell ax) ≠ 0) :
    wrap (fun x y => -D x y) cell pbc r ax = -wrap D cell pbc r ax := by
  rcases hp : pbc ax with hf | ht
  · simp [wrap, wrapAxis, hp]
  · rcases h with hfalse | hmod
    · rw [hp] at hfalse
      exact absurd hfalse (by simp)
    · have key : fmod (-D r ax + cell ax / 2) (cell ax) =
          cell ax - fmod (D r ax + cell ax / 2) (cell ax) := by
        have e1 : -D r ax + cell ax / 2 =
            -(D r ax + cell ax / 2) + cell ax := by ring
        rw [e1, fmod_add_self _ _ hL.ne', fmod_neg _ _ hL hmod]
      simp only [wrap, wrapAxis, hp, if_pos]
      rw [key]
      ring

/-- Witness for `wrap_antisym` at `d = 1`, `L = 5` (periodic). -/
theorem wrap_antisym_witness :
    (0 : ℝ) < 5 ∧
    fmod ((1 : ℝ) + 5 / 2) 5 ≠ 0 ∧
    wrap (fun (x : Fin 1) (y : Fin 3) =>
        -(fun (_ : Fin 1) (_ : Fin 3) => (1 : ℝ)) x y) (fun _ => 5)
      (fun _ => true) 0 0 =
      -wrap (fun (_ : Fin 1) (_ : Fin 3) => (1 : ℝ)) (fun _ => 5)
        (fun _ => true) 0 0 := by
  have hmod : fmod ((1 : ℝ) + 5 / 2) 5 ≠ 0 := by
    unfold fmod
    norm_num
  exact ⟨by norm_num, hmod,
    wrap_antisym (fun _ _ => (1 : ℝ)) (fun _ => 5) (fun _ => true) 0 0
      (by norm_num) (Or.inr hmod)⟩

/-! ## C1: the species-sequence precondition -/

/-- Species numbers of a snapshot violating the triplet pattern: `[7, 8,
6]` per triplet, nitrogen first but oxygen (8), not carbon (6), at offset
1. -/
def Zbad : ℕ → Fin 3 → ℤ := fun _ s => if s = 0 then 7 else if s = 1 then 8 else 6

/-- Species numbers of a valid snapshot in the `(N, C, Me)` ordering:
`[7, 6, 6]` per triplet. -/
def Zgood : ℕ → Fin 3 → ℤ := fun _ s => if s = 0 then 7 else 6

/-- C1 fails on the code: for the snapshot `Zbad` (carbon not at offset 1
of the triplet) the check actually executed by `ACN.calculate` passes,
`set_acn_charges` checks nothing at all, the intended check would have
rejected the snapshot, and `ACN.calculate` returns a result instead of
raising.  The two asserts with the carbon-offset condition are inert
because `.all` is not called (missing parentheses), so the documented
precondition failure never happens. -/
theorem speciesCheck_inert_code_bug :
    speciesOkCode 1 Zbad = true ∧
    setAcnChargesCheck 1 Zbad = true ∧
    speciesOkIntended 1 Zbad = false ∧
    (ACNcalculate 5 1 1 1 1 (fun _ _ _ => 0) Zbad (fun _ _ => 0) (fun _ => 1)
      (fun _ => false) none).isSome = true := by
  have hok : speciesOkCode 1 Zbad = true := by decide
  refine ⟨hok, rfl, by decide, ?_⟩
  simp [ACNcalculate, calcCore, hok]

/-! ## C2: net force under the rigid-body redistribution -/

/-- Coefficient picked up by the `F_N` input in the effective-mass
weighted sum of the redistributed rows. -/
lemma weightCoeffN :
    (1 + mC * CN / mN) * (1 - NN * MMeC * CN) -
      (1 + mC * CMe / mMe) * (NMe * MMeC * CN) = 1 := by
  norm_num [NN, NMe, MMeC, MCN, MMeN, CMe, CN, mMe, mC, mN, mH, rMeN, rMeC, rCN]

/-- Coefficient picked up by the `F_Me` input in the effective-mass
weighted sum of the redistributed rows. -/
lemma weightCoeffMe :
    -((1 + mC * CN / mN) * (NN * MCN * CMe)) +
      (1 + mC * CMe / mMe) * (1 - NMe * MCN * CMe) = 1 := by
  norm_num [NN, NMe, MMeC, MCN, MMeN, CMe, CN, mMe, mC, mN, mH, rMeN, rMeC, rCN]

/-- Coefficient picked up by the `F_C` input in the effective-mass
weighted sum of the redistributed rows. -/
lemma weightCoeffC :
    (1 + mC * CN / mN) * (NN * MMeN) + (1 + mC * CMe / mMe) * (NMe * MMeN) = 1 := by
  norm_num [NN, NMe, MMeC, MCN, MMeN, CMe, CN, mMe, mC, mN, mH, rMeN, rMeC, rCN]

/-- Effective-mass weighted row sum of the redistribution: for either of
the two permitted offset assignments, the combination
`(1 + mC*CN/mN) * F_n + (1 + mC*CMe/mMe) * F_me` of the output rows
reproduces the plain sum of the three input rows, per molecule, per
axis. -/
lemma redistribute_weighted_rows (n me : Fin 3)
    (h : n = 0 ∧ me = 2 ∨ n = 2 ∧ me = 0) (f : ℕ × Fin 3 → Fin 3 → ℝ)
    (m : ℕ) (ax : Fin 3) :
    (1 + mC * CN / mN) * redistribute_forces n me f (m, n) ax +
      (1 + mC * CMe / mMe) * redistribute_forces n me f (m, me) ax =
    f (m, 0) ax + f (m, 1) ax + f (m, 2) ax := by
  rcases h with ⟨hn, hme⟩ | ⟨hn, hme⟩ <;> subst hn <;> subst hme
  · simp only [redistribute_forces, if_neg (show ¬((0 : Fin 3) = 2) by decide),
      if_neg (show ¬((1 : Fin 3) = 2) by decide), if_pos (rfl : (0 : Fin 3) = 0),
      if_pos (rfl : (2 : Fin 3) = 2), if_true]
    linear_combination f (m, 0) ax * weightCoeffN + f (m, 2) ax * weightCoeffMe +
      f (m, 1) ax * weightCoeffC
  · simp only [redistribute_forces, if_neg (show ¬((2 : Fin 3) = 0) by decide),
      if_neg (show ¬((1 : Fin 3) = 0) by decide), if_pos (rfl : (2 : Fin 3) = 2),
      if_pos (rfl : (0 : Fin 3) = 0), if_true]
    linear_combination f (m, 2) ax * weightCoeffN + f (m, 0) ax * weightCoeffMe +
      f (m, 1) ax * weightCoeffC

/-- Unit force on the carbon row only: `(F_N, F_C, F_Me) = (0, 1, 0)`
componentwise. -/
def fCarbonUnit : ℕ × Fin 3 → Fin 3 → ℝ := fun a _ => if a.2 = 1 then 1 else 0

/-- C2 fails on the code: for the input forces `(F_N, F_C, F_Me) =
(0, e_x, 0)` on molecule `0` (offsets `n = 0`, `me = 2`), the sum of the
three redistributed output rows (carbon row left `0` by the code) is
`MMeN / (CMe^2*MCN + CN^2*MMeC + MMeN) ≈ 0.7028`, not the input sum `1`:
the redistribution does not preserve the plain per-molecule net force. -/
theorem redistribute_net_force_counterexample :
    (∑ s : Fin 3, redistribute_forces 0 2 fCarbonUnit (0, s) 0) ≠
      ∑ s : Fin 3, fCarbonUnit (0, s) 0 := by
  simp [Fin.sum_univ_three, redistribute_forces, fCarbonUnit]
  norm_num [NN, NMe, MMeC, MCN, MMeN, CMe, CN, mMe, mC, mN, mH, rMeN, rMeC, rCN]

/-- C2 amended: the redistribution leaves the carbon row zero and
preserves the per-molecule net force in the effective-mass weighted sense
`(1 + mC*CN/mN) * F_n + (1 + mC*CMe/mMe) * F_me = F_N + F_C + F_Me` (for
arbitrary input forces and either permitted offset assignment); the
plain vector sum of the three output rows differs from the input sum
(see the counterexample). -/
theorem redistribute_weighted_net_force (n me : Fin 3)
    (h : n = 0 ∧ me = 2 ∨ n = 2 ∧ me = 0) (f : ℕ × Fin 3 → Fin 3 → ℝ)
    (m : ℕ) (ax : Fin 3) :
    redistribute_forces n me f (m, 1) ax = 0 ∧
    (1 + mC * CN / mN) * redistribute_forces n me f (m, n) ax +
      (1 + mC * CMe / mMe) * redistribute_forces n me f (m, me) ax =
    f (m, 0) ax + f (m, 1) ax + f (m, 2) ax := by
  refine ⟨?_, redistribute_weighted_rows n me h f m ax⟩
  rcases h with ⟨hn, hme⟩ | ⟨hn, hme⟩ <;> subst hn <;> subst hme <;>
    simp [redistribute_forces]

/-- Witness for `redistribute_weighted_net_force` at `(n, me) = (0, 2)`
with the concrete carbon-row unit force. -/
theorem redistribute_weighted_net_force_witness :
    redistribute_forces 0 2 fCarbonUnit (0, 1) 0 = 0 ∧
    (1 + mC * CN / mN) * redistribute_forces 0 2 fCarbonUnit (0, 0) 0 +
      (1 + mC * CMe / mMe) * redistribute_forces 0 2 fCarbonUnit (0, 2) 0 =
    fCarbonUnit (0, 0) 0 + fCarbonUnit (0, 1) 0 + fCarbonUnit (0, 2) 0 :=
  redistribute_weighted_net_force 0 2 (Or.inl ⟨rfl, rfl⟩) fCarbonUnit 0 0

/-! ## C3: total force of the pairwise engine -/

/-- Exchange of the two atom indices in a quadruple sum over all pairs of
atoms. -/
lemma sum_swap_pairs (nm : ℕ) (G : ℕ → Fin 3 → ℕ → Fin 3 → ℝ) :
    (∑ m ∈ Finset.range nm, ∑ s : Fin 3, ∑ p ∈ Finset.range nm, ∑ i : Fin 3,
      G m s p i) =
    ∑ m ∈ Finset.range nm, ∑ s : Fin 3, ∑ p ∈ Finset.range nm, ∑ i : Fin 3,
      G p i m s := by
  calc (∑ m ∈ Finset.range nm, ∑ s : Fin 3, ∑ p ∈ Finset.range nm, ∑ i : Fin 3,
        G m s p i)
      = ∑ m ∈ Finset.range nm, ∑ p ∈ Finset.range nm, ∑ s : Fin 3, ∑ i : Fin 3,
          G m s p i :=
        Finset.sum_congr rfl fun m _ => Finset.sum_comm
    _ = ∑ p ∈ Finset.range nm, ∑ m ∈ Finset.range nm, ∑ s : Fin 3, ∑ i : Fin 3,
          G m s p i := Finset.sum_comm
    _ = ∑ p ∈ Finset.range nm, ∑ m ∈ Finset.range nm, ∑ i : Fin 3, ∑ s : Fin 3,
          G m s p i :=
        Finset.sum_congr rfl fun p _ => Finset.sum_congr rfl fun m _ =>
          Finset.sum_comm
    _ = ∑ p ∈ Finset.range nm, ∑ i : Fin 3, ∑ m ∈ Finset.range nm, ∑ s : Fin 3,
          G m s p i :=
        Finset.sum_congr rfl fun p _ => Finset.sum_comm

/-- Exchange of the two molecule indices in a triple sum over molecule
pairs and offsets. -/
lemma sum_swap_tri (nm : ℕ) (G : ℕ → Fin 3 → ℕ → ℝ) :
    (∑ m ∈ Finset.range nm, ∑ m2 ∈ Finset.range nm, ∑ j : Fin 3, G m2 j m) =
    ∑ m ∈ Finset.range nm, ∑ j : Fin 3, ∑ p ∈ Finset.range nm, G m j p := by
  calc (∑ m ∈ Finset.range nm, ∑ m2 ∈ Finset.range nm, ∑ j : Fin 3, G m2 j m)
      = ∑ m2 ∈ Finset.range nm, ∑ m ∈ Finset.range nm, ∑ j : Fin 3, G m2 j m :=
        Finset.sum_comm
    _ = ∑ m2 ∈ Finset.range nm, ∑ j : Fin 3, ∑ m ∈ Finset.range nm, G m2 j m :=
        Finset.sum_congr rfl fun m2 _ => Finset.sum_comm

/-- Newton's third law built into the force accumulation: the sum of the
raw accumulated forces over all atoms vanishes identically (every `+=`
into a partner atom has its exact `-=` counterpart on the reference
atom), for any inputs, periodic or not. -/
lemma rawForces_total (c : EngineIn) (nm : ℕ) (ax : Fin 3) :
    (∑ m ∈ Finset.range nm, ∑ s : Fin 3, rawForces c nm (m, s) ax) = 0 := by
  simp only [rawForces, Finset.sum_sub_distrib, Finset.sum_add_distrib,
    Finset.sum_ite_eq', Finset.mem_univ, if_true]
  rw [sum_swap_pairs nm (fun m s p i =>
      if p < m then FCoul c p i m s ax + FLJ c p i m s ax else 0),
    sum_swap_tri nm (fun m2 j m =>
      if m2 < m then FmmCoul c m2 j m ax + FmmLJ c m2 j m ax else 0)]
  ring

/-- Trivial valid one-molecule engine input (defaults `rc = 5`,
`width = 1`, all positions and charges zero, non-periodic unit cell). -/
def engTriv : EngineIn :=
  { rc := 5, width := 1, kc := 1, u := 1, R := fun _ _ _ => 0,
    q := fun _ => 0, cell := fun _ => 1, pbc := fun _ => false }

/-- C3 amended: for every snapshot accepted by the executed species
check, with all periodicity flags false and no attached point-charge
field, the sum over all atoms of the raw accumulated forces is exactly
zero, and after `redistribute_forces` the effective-mass weighted total
`Σ_molecules ((1 + mC*CN/mN) F_n + (1 + mC*CMe/mMe) F_me)` is zero; the
plain sum of the redistributed forces is in general nonzero (see the
counterexample). -/
theorem calculate_force_sums (c : EngineIn) (Z : ℕ → Fin 3 → ℤ) (nm : ℕ)
    (_hpbc : c.pbc = fun _ => false) (_hok : speciesOkCode nm Z = true)
    (ax : Fin 3) :
    (∑ m ∈ Finset.range nm, ∑ s : Fin 3, rawForces c nm (m, s) ax) = 0 ∧
    (∑ m ∈ Finset.range nm,
        ((1 + mC * CN / mN) * finalForcesNoPc c Z nm (m, nIdx Z) ax +
          (1 + mC * CMe / mMe) * finalForcesNoPc c Z nm (m, meIdx Z) ax)) = 0 := by
  refine ⟨rawForces_total c nm ax, ?_⟩
  have hnm : nIdx Z = 0 ∧ meIdx Z = 2 ∨ nIdx Z = 2 ∧ meIdx Z = 0 := by
    by_cases hz : Z 0 0 = 7
    · exact Or.inl ⟨by simp [nIdx, hz], by simp [meIdx, hz]⟩
    · exact Or.inr ⟨by simp [nIdx, hz], by simp [meIdx, hz]⟩
  calc (∑ m ∈ Finset.range nm,
          ((1 + mC * CN / mN) * finalForcesNoPc c Z nm (m, nIdx Z) ax +
            (1 + mC * CMe / mMe) * finalForcesNoPc c Z nm (m, meIdx Z) ax))
      = ∑ m ∈ Finset.range nm,
          (rawForces c nm (m, 0) ax + rawForces c nm (m, 1) ax +
            rawForces c nm (m, 2) ax) :=
        Finset.sum_congr rfl fun m _ =>
          redistribute_weighted_rows (nIdx Z) (meIdx Z) hnm (rawForces c nm) m ax
    _ = ∑ m ∈ Finset.range nm, ∑ s : Fin 3, rawForces c nm (m, s) ax :=
        Finset.sum_congr rfl fun m _ =>
          (Fin.sum_univ_three fun s => rawForces c nm (m, s) ax).symm
    _ = 0 := rawForces_total c nm ax

/-- Witness for `calculate_force_sums` on the trivial valid one-molecule
snapshot. -/
theorem calculate_force_sums_witness :
    engTriv.pbc = (fun _ => false) ∧ speciesOkCode 1 Zgood = true ∧
    ((∑ m ∈ Finset.range 1, ∑ s : Fin 3, rawForces engTriv 1 (m, s) 0) = 0 ∧
      (∑ m ∈ Finset.range 1,
          ((1 + mC * CN / mN) * finalForcesNoPc engTriv Zgood 1 (m, nIdx Zgood) 0 +
            (1 + mC * CMe / mMe) *
              finalForcesNoPc engTriv Zgood 1 (m, meIdx Zgood) 0)) = 0) :=
  ⟨rfl, by decide, calculate_force_sums engTriv Zgood 1 rfl (by decide) 0⟩

/-- Positions of the two-molecule counterexample snapshot, all on the x
axis: molecule `0` has its three sites at the origin, molecule `1` has
sites `0` and `1` at `x = 3` and site `2` at `x = 2`. -/
def Rc3 : ℕ → Fin 3 → Fin 3 → ℝ := fun m s ax =>
  if m = 1 ∧ ax = 0 then (if s = 2 then 2 else 3) else 0

/-- Engine inputs of the counterexample snapshot: constructor defaults
`rc = 5`, `width = 1`, unit values for the two unknown physical
constants, zero initial charges, non-periodic box. -/
def engC3 : EngineIn :=
  { rc := 5, width := 1, kc := 1, u := 1, R := Rc3, q := fun _ => 0,
    cell := fun _ => 100, pbc := fun _ => false }

/-- C3 fails on the code after redistribution: the valid non-periodic
two-molecule snapshot `engC3` (no attached field, zero charges, carbon
pair distance `3` so the cutoff weight is `1`) has a nonzero total
redistributed force along the x axis, because `redistribute_forces` does
not preserve the per-molecule net force; the raw total before
redistribution is zero (see `calculate_force_sums`). -/
theorem calculate_redistributed_sum_counterexample :
    speciesOkCode 2 Zgood = true ∧ engC3.pbc = (fun _ => false) ∧
    (∑ m ∈ Finset.range 2, ∑ s : Fin 3,
      finalForcesNoPc engC3 Zgood 2 (m, s) 0) ≠ 0 := by
  refine ⟨by decide, rfl, ?_⟩
  have hshift : ∀ m p : ℕ, ∀ ax : Fin 3, shiftV engC3 m p ax = 0 := by
    intro m p ax
    simp [shiftV, wrap, wrapAxis, engC3]
  have hR : engC3.R = Rc3 := rfl
  have hsum9 : (∑ ax : Fin 3, DmmV engC3 0 1 ax ^ 2) = 9 := by
    simp [DmmV, Dmm0, hshift, hR, Rc3, Fin.sum_univ_three]
    norm_num
  have hd : dV engC3 0 1 = 3 := by
    rw [dV, hsum9, show (9 : ℝ) = 3 ^ 2 by norm_num,
      Real.sqrt_sq (by norm_num : (0 : ℝ) ≤ 3)]
  have hcut : cutV engC3 0 1 = 1 := by
    rw [cutV, hd]
    norm_num [cutoff, engC3]
  have hdcut : dcutV engC3 0 1 = 0 := by
    rw [dcutV, hd]
    norm_num [cutoff, engC3]
  have heC : ∀ j i : Fin 3, eCoul engC3 0 j 1 i = 0 := by
    intro j i
    simp [eCoul, engC3]
  have hFC : ∀ j i ax : Fin 3, FCoul engC3 0 j 1 i ax = 0 := by
    intro j i ax
    simp [FCoul, heC]
  have hFmmC : ∀ j ax : Fin 3, FmmCoul engC3 0 j 1 ax = 0 := by
    intro j ax
    simp [FmmCoul, heC]
  have hFmmL : ∀ j ax : Fin 3, FmmLJ engC3 0 j 1 ax = 0 := by
    intro j ax
    simp [FmmLJ, hdcut]
  have hraw1 : ∀ i : Fin 3,
      rawForces engC3 2 (1, i) 0 = ∑ j : Fin 3, FLJ engC3 0 j 1 i 0 := by
    intro i
    simp [rawForces, Finset.sum_range_succ, hFC, hFmmC, hFmmL]
  have hraw0 : ∀ s : Fin 3,
      rawForces engC3 2 (0, s) 0 = -∑ i : Fin 3, FLJ engC3 0 s 1 i 0 := by
    intro s
    simp [rawForces, Finset.sum_range_succ, hFC, hFmmC, hFmmL]
  have hFLJ : ∀ j i : Fin 3, FLJ engC3 0 j 1 i 0 =
      24 * epsC 1 i j *
        (2 * ((sigC i j ^ 2 / (if i = 2 then 4 else 9)) ^ 3) ^ 2 -
          (sigC i j ^ 2 / (if i = 2 then 4 else 9)) ^ 3) /
        (if i = 2 then 4 else 9) * (if i = 2 then 2 else 3) := by
    intro j i
    have hr2 : r2V engC3 0 j 1 i = if i = 2 then 4 else 9 := by
      fin_cases i <;> simp [r2V, Dsite, hshift, hR, Rc3, Fin.sum_univ_three] <;>
        norm_num
    have hD : Dsite engC3 0 j 1 i 0 = if i = 2 then 2 else 3 := by
      fin_cases i <;> simp [Dsite, hshift, hR, Rc3]
    simp only [FLJ, c12V, c6V, hr2, hD, hcut]
    have hu : engC3.u = 1 := rfl
    rw [hu]
    ring
  have hfin : ∀ a : ℕ × Fin 3, ∀ ax : Fin 3,
      finalForcesNoPc engC3 Zgood 2 a ax =
        redistribute_forces 0 2 (rawForces engC3 2) a ax := fun a ax => rfl
  simp only [hfin, Finset.sum_range_succ, Finset.sum_range_zero,
    Fin.sum_univ_three, redistribute_forces,
    if_neg (show ¬((1 : Fin 3) = 2) by decide),
    if_neg (show ¬((1 : Fin 3) = 0) by decide),
    if_neg (show ¬((0 : Fin 3) = 2) by decide),
    if_neg (show ¬((2 : Fin 3) = 0) by decide), if_true]
  simp only [hraw0, hraw1, Fin.sum_univ_three, hFLJ]
  simp only [if_neg (show ¬((0 : Fin 3) = 2) by decide),
    if_neg (show ¬((1 : Fin 3) = 2) by decide), if_pos (rfl : (2 : Fin 3) = 2),
    if_true]
  have hs00 : sigC 0 0 = 3.775 := by
    norm_num [sigC, CombineLJ_lorenz_berthelot, sigmaArr]
  have hs01 : sigC 0 1 = 3.7125 := by
    norm_num [sigC, CombineLJ_lorenz_berthelot, sigmaArr]
  have hs02 : sigC 0 2 = 3.4875 := by
    norm_num [sigC, CombineLJ_lorenz_berthelot, sigmaArr]
  have hs10 : sigC 1 0 = 3.7125 := by
    norm_num [sigC, CombineLJ_lorenz_berthelot, sigmaArr]
  have hs11 : sigC 1 1 = 3.65 := by
    norm_num [sigC, CombineLJ_lorenz_berthelot, sigmaArr]
  have hs12 : sigC 1 2 = 3.425 := by
    norm_num [sigC, CombineLJ_lorenz_berthelot, sigmaArr]
  have hs20 : sigC 2 0 = 3.4875 := by
    norm_num [sigC, CombineLJ_lorenz_berthelot, sigmaArr]
  have hs21 : sigC 2 1 = 3.425 := by
    norm_num [sigC, CombineLJ_lorenz_berthelot, sigmaArr]
  have hs22 : sigC 2 2 = 3.2 := by
    norm_num [sigC, CombineLJ_lorenz_berthelot, sigmaArr]
  have hE00 : epsC 1 0 0 = 0.7824 := by
    rw [show epsC 1 0 0 = Real.sqrt (epsilonArr 1 0 * epsilonArr 1 0) from rfl,
      show epsilonArr 1 0 * epsilonArr 1 0 = 0.7824 ^ 2 from by
        norm_num [epsilonArr]]
    exact Real.sqrt_sq (by norm_num)
  have hE11 : epsC 1 1 1 = 0.544 := by
    rw [show epsC 1 1 1 = Real.sqrt (epsilonArr 1 1 * epsilonArr 1 1) from rfl,
      show epsilonArr 1 1 * epsilonArr 1 1 = 0.544 ^ 2 from by
        norm_num [epsilonArr]]
    exact Real.sqrt_sq (by norm_num)
  have hE22 : epsC 1 2 2 = 0.6276 := by
    rw [show epsC 1 2 2 = Real.sqrt (epsilonArr 1 2 * epsilonArr 1 2) from rfl,
      show epsilonArr 1 2 * epsilonArr 1 2 = 0.6276 ^ 2 from by
        norm_num [epsilonArr]]
    exact Real.sqrt_sq (by norm_num)
  have hE01 : epsC 1 0 1 = Real.sqrt 0.4256256 := by
    rw [show epsC 1 0 1 = Real.sqrt (epsilonArr 1 1 * epsilonArr 1 0) from rfl,
      show epsilonArr 1 1 * epsilonArr 1 0 = 0.4256256 from by
        norm_num [epsilonArr]]
  have hE10 : epsC 1 1 0 = Real.sqrt 0.4256256 := by
    rw [show epsC 1 1 0 = Real.sqrt (epsilonArr 1 0 * epsilonArr 1 1) from rfl,
      show epsilonArr 1 0 * epsilonArr 1 1 = 0.4256256 from by
        norm_num [epsilonArr]]
  have hE02 : epsC 1 0 2 = Real.sqrt 0.49103424 := by
    rw [show epsC 1 0 2 = Real.sqrt (epsilonArr 1 2 * epsilonArr 1 0) from rfl,
      show epsilonArr 1 2 * epsilonArr 1 0 = 0.49103424 from by
        norm_num [epsilonArr]]
  have hE20 : epsC 1 2 0 = Real.sqrt 0.49103424 := by
    rw [show epsC 1 2 0 = Real.sqrt (epsilonArr 1 0 * epsilonArr 1 2) from rfl,
      show epsilonArr 1 0 * epsilonArr 1 2 = 0.49103424 from by
        norm_num [epsilonArr]]
  have hE12 : epsC 1 1 2 = Real.sqrt 0.3414144 := by
    rw [show epsC 1 1 2 = Real.sqrt (epsilonArr 1 2 * epsilonArr 1 1) from rfl,
      show epsilonArr 1 2 * epsilonArr 1 1 = 0.3414144 from by
        norm_num [epsilonArr]]
  have hE21 : epsC 1 2 1 = Real.sqrt 0.3414144 := by
    rw [show epsC 1 2 1 = Real.sqrt (epsilonArr 1 1 * epsilonArr 1 2) from rfl,
      show epsilonArr 1 1 * epsilonArr 1 2 = 0.3414144 from by
        norm_num [epsilonArr]]
  simp only [hs00, hs01, hs02, hs10, hs11, hs12, hs20, hs21, hs22,
    hE00, hE01, hE02, hE10, hE11, hE12, hE20, hE21, hE22,
    NN, NMe, MCN, MMeC, MMeN, CMe, CN, mMe, mC, mN, mH, rMeN, rMeC, rCN]
  refine ne_of_gt ?_
  nlinarith [Real.sqrt_pos.mpr (show (0 : ℝ) < 0.49103424 by norm_num),
    Real.sqrt_pos.mpr (show (0 : ℝ) < 0.3414144 by norm_num),
    Real.sqrt_nonneg (0.4256256 : ℝ)]

/-! ## C8: a single isolated molecule -/

/-- C8: for every valid one-molecule snapshot with no attached
point-charge field the molecule pair loop is empty, so the energy is
exactly `0`, every raw accumulated force is exactly `0`, every
redistributed force is exactly `0`, and `ACN.calculate` returns energy
`0` with the all-zero redistributed force array. -/
theorem single_molecule_zero (c : EngineIn) (Z : ℕ → Fin 3 → ℤ)
    (hok : speciesOkCode 1 Z = true) :
    energyTot c 1 = 0 ∧
    (∀ s ax : Fin 3, rawForces c 1 (0, s) ax = 0) ∧
    (∀ s ax : Fin 3, finalForcesNoPc c Z 1 (0, s) ax = 0) ∧
    calcCore c Z 1 none = some (0, finalForcesNoPc c Z 1, none) := by
  have he : energyTot c 1 = 0 := by
    simp [energyTot, Finset.sum_range_one]
  have hraw : ∀ s ax : Fin 3, rawForces c 1 (0, s) ax = 0 := by
    intro s ax
    simp [rawForces, Finset.sum_range_one]
  have hfin : ∀ s ax : Fin 3, finalForcesNoPc c Z 1 (0, s) ax = 0 := by
    intro s ax
    simp [finalForcesNoPc, redistribute_forces, hraw]
  refine ⟨he, hraw, hfin, ?_⟩
  simp [calcCore, hok, he]

/-- Witness for `single_molecule_zero` on the trivial valid one-molecule
snapshot. -/
theorem single_molecule_zero_witness :
    speciesOkCode 1 Zgood = true ∧
    (energyTot engTriv 1 = 0 ∧
      (∀ s ax : Fin 3, rawForces engTriv 1 (0, s) ax = 0) ∧
      (∀ s ax : Fin 3, finalForcesNoPc engTriv Zgood 1 (0, s) ax = 0) ∧
      calcCore engTriv Zgood 1 none =
        some (0, finalForcesNoPc engTriv Zgood 1, none)) :=
  ⟨by decide, single_molecule_zero engTriv Zgood (by decide)⟩

/-! ## C9: the point-charge potential clears its position buffer -/

/-- C9: one call of `PointChargePotential.calculate` on a state holding
positions succeeds, leaves `mmcharges` unchanged, clears `mmpositions`
to `None`, and a further call without a fresh `set_positions` cannot
produce a result. -/
theorem pcp_clears_positions (kc : ℝ) (nq : ℕ) (qmq : ℕ → ℝ)
    (qmpos : ℕ → Fin 3 → ℝ) (st : PCPState) (P : List (Fin 3 → ℝ))
    (h : st.mmpositions = some P) :
    ∃ E F st2, pcpCalculate kc nq qmq qmpos st = some (E, F, st2) ∧
      st2.mmpositions = none ∧ st2.mmcharges = st.mmcharges ∧
      pcpCalculate kc nq qmq qmpos st2 = none := by
  obtain ⟨mmc, mmp, mmf⟩ := st
  cases mmp with
  | none => exact absurd h (by simp)
  | some Q => exact ⟨_, _, _, rfl, rfl, rfl, rfl⟩

/-- Witness for `pcp_clears_positions`: one external charge at the
origin, one solute site. -/
theorem pcp_clears_positions_witness :
    ∃ E F st2,
      pcpCalculate 1 1 (fun _ => 1) (fun _ _ => 1)
          ⟨[1], some [fun _ => 0], none⟩ = some (E, F, st2) ∧
      st2.mmpositions = none ∧ st2.mmcharges = [1] ∧
      pcpCalculate 1 1 (fun _ => 1) (fun _ _ => 1) st2 = none :=
  pcp_clears_positions 1 1 (fun _ => 1) (fun _ _ => 1)
    ⟨[1], some [fun _ => 0], none⟩ [fun _ => 0] rfl

/-! ## C10: charges of atoms beyond the first molecule are never read -/

/-- C10: `ACN.calculate` reads the per-atom initial charges only through
`atoms[:3]`: two snapshots that agree on the charges of the first
molecule (atom indices below 3) produce identical results — energy,
forces and left-behind embedding state — whatever the charges of the
remaining atoms are, with or without an attached point-charge field
(whose tiled charge argument also only replicates the first triplet). -/
theorem charges_beyond_first_molecule_ignored (rc width kc u : ℝ) (nm : ℕ)
    (R : ℕ → Fin 3 → Fin 3 → ℝ) (Z : ℕ → Fin 3 → ℤ)
    (ch ch2 : ℕ → Fin 3 → ℝ) (cell : Fin 3 → ℝ) (pbc : Fin 3 → Bool)
    (pc : Option PCPState) (h : ∀ s : Fin 3, ch 0 s = ch2 0 s) :
    ACNcalculate rc width kc u nm R Z ch cell pbc pc =
      ACNcalculate rc width kc u nm R Z ch2 cell pbc pc := by
  have h0 : ch 0 = ch2 0 := funext h
  simp only [ACNcalculate, h0]

/-- Witness for `charges_beyond_first_molecule_ignored`: two two-molecule
snapshots whose charges differ only on the atoms of molecule `1`. -/
theorem charges_beyond_first_molecule_ignored_witness :
    ACNcalculate 5 1 1 1 2 (fun _ _ _ => 0) Zgood
        (fun m _ => if m = 0 then 0 else 5) (fun _ => 1) (fun _ => false) none =
      ACNcalculate 5 1 1 1 2 (fun _ _ _ => 0) Zgood (fun _ _ => 0)
        (fun _ => 1) (fun _ => false) none :=
  charges_beyond_first_molecule_ignored 5 1 1 1 2 (fun _ _ _ => 0) Zgood
    (fun m _ => if m = 0 then 0 else 5) (fun _ _ => 0) (fun _ => 1)
    (fun _ => false) none (fun _ => by norm_num)

end

end AcnVerify
